import Mathlib

/-!
Verification of the turn-orchestration engine of the Worker chat agent
(src/src/server.ts). The TypeScript source is shallowly embedded below:

* the pure message translator uiMessagesToWorkersAI is embedded as a pure
  function on a model of UI messages;
* the pass loop of onChatMessage is embedded as a structurally recursive
  function over an explicit fuel (the literal bound 3 of the for loop),
  taking the inference backend as an explicit script (pass index to
  outcome), JSON.parse of tool arguments as an explicit parser function,
  and the network body of executeSearchWeb as an explicit function from
  query to raw response string (these three are I/O boundaries in the
  source: AI.run, JSON.parse on model output, fetch);
* durable-object state (this.state / this.setState) is explicit state
  passing over AgentState; clock reads (Date.now, toISOString,
  toLocaleDateString) are explicit string parameters.

JavaScript truthiness on the spots where the source relies on it
(x || default) is modelled by dedicated helpers jsOrStr / jsOrInt.
-/

namespace Worker

/-- Minimal JSON value model, for the part values the translator serializes
with JSON.stringify. -/
inductive Json where
  | null : Json
  | bool (b : Bool) : Json
  | num (n : Int) : Json
  | str (s : String) : Json
  | arr (elems : List Json) : Json
  | obj (fields : List (String × Json)) : Json

mutual

/-- Embeds JSON.stringify on the Json model (string escaping elided: the
claims never inspect the rendered text beyond equality of whole values). -/
def Json.render : Json → String
  | .null => "null"
  | .bool true => "true"
  | .bool false => "false"
  | .num n => toString n
  | .str s => "\x22" ++ s ++ "\x22"
  | .arr elems => "[" ++ Json.renderArr elems ++ "]"
  | .obj fields => "\x7b" ++ Json.renderObj fields ++ "\x7d"

/-- Comma-joined rendering of a JSON array body. -/
def Json.renderArr : List Json → String
  | [] => ""
  | [x] => Json.render x
  | x :: xs => Json.render x ++ "," ++ Json.renderArr xs

/-- Comma-joined rendering of a JSON object body. -/
def Json.renderObj : List (String × Json) → String
  | [] => ""
  | [(k, v)] => "\x22" ++ k ++ "\x22:" ++ Json.render v
  | (k, v) :: fs => "\x22" ++ k ++ "\x22:" ++ Json.render v ++ "," ++ Json.renderObj fs

end

/-- JavaScript string truthiness fallback: s || d (the empty string is
falsy). Used for t.toolName || "unknown" and args.query || "". -/
def jsOrStr (o : Option String) (d : String) : String :=
  match o with
  | none => d
  | some s => if s = "" then d else s

/-- JavaScript number truthiness fallback: n || d (0 is falsy). Used for
args.delaySeconds || 60. -/
def jsOrInt (o : Option Int) (d : Int) : Int :=
  match o with
  | none => d
  | some n => if n = 0 then d else n

/-- Lifecycle state strings of a UI tool-call part, as compared against in
uiMessagesToWorkersAI. -/
inductive ToolPartState where
  | outputAvailable
  | rejected
  | approvalRequired
  | requested
deriving DecidableEq, Repr

/-- A tool part of a UI message (type tool-* or dynamic-tool): toolCallId,
optional toolName, lifecycle state, optional input and output payloads. -/
structure UIToolPart where
  toolCallId : String
  toolName : Option String
  state : ToolPartState
  input : Option Json
  output : Option Json

/-- One part of a UI message: the translator looks only at text parts and
tool parts; every other part type is ignored (modelled by otherPart). -/
inductive UIPart where
  | text (text : String)
  | tool (t : UIToolPart)
  | otherPart

/-- Role of a UI message. The translator handles user and assistant roles
and drops everything else. -/
inductive UIRole where
  | user
  | assistant
  | system
deriving DecidableEq, Repr

/-- A UI message: role plus ordered parts. -/
structure UIMessage where
  role : UIRole
  parts : List UIPart

/-- Role of a flat Workers-AI message. -/
inductive Role where
  | system
  | user
  | assistant
  | tool
deriving DecidableEq, Repr

/-- WorkersAIToolCall: id plus function.name and function.arguments
(arguments is a serialized JSON string). -/
structure WorkersAIToolCall where
  id : String
  name : String
  arguments : String
deriving DecidableEq, Repr

/-- WorkersAIMessage: the flat request format. Absent optional fields are
none; an absent tool_calls field is the empty list. -/
structure WorkersAIMessage where
  role : Role
  content : String
  tool_call_id : Option String := none
  name : Option String := none
  tool_calls : List WorkersAIToolCall := []
deriving DecidableEq, Repr

/-- The newline-joined concatenation of the text parts of a message
(msg.parts.filter(type === text).map(text).join of the source). -/
def textPartsOf (parts : List UIPart) : String :=
  String.intercalate "\n" (parts.filterMap fun p =>
    match p with
    | .text t => some t
    | _ => none)

/-- The tool parts of a message, in order of appearance. -/
def toolPartsOf (parts : List UIPart) : List UIToolPart :=
  parts.filterMap fun p =>
    match p with
    | .tool t => some t
    | _ => none

/-- The state test collecting a tool part into tool_calls: state is
output-available, rejected or approval-required. -/
def isCollectedState (st : ToolPartState) : Bool :=
  match st with
  | .outputAvailable => true
  | .rejected => true
  | .approvalRequired => true
  | .requested => false

/-- The state test emitting a tool-result entry for a collected call:
state is output-available or rejected. -/
def hasResultState (st : ToolPartState) : Bool :=
  match st with
  | .outputAvailable => true
  | .rejected => true
  | _ => false

/-- The calls collected into tool_calls: tool parts whose state is
output-available, rejected or approval-required. -/
def collectedCalls (parts : List UIPart) : List UIToolPart :=
  (toolPartsOf parts).filter fun t => isCollectedState t.state

/-- The tool_calls entry built from one collected call. -/
def toolCallEntry (t : UIToolPart) : WorkersAIToolCall :=
  ⟨t.toolCallId, jsOrStr t.toolName "unknown", Json.render (t.input.getD (.obj []))⟩

/-- The tool-result message pushed for a collected call in state
output-available or rejected. -/
def toolResultEntry (t : UIToolPart) : WorkersAIMessage :=
  { role := .tool
    content :=
      if t.state = .rejected then "Error: User rejected this action."
      else Json.render (t.output.getD (.obj []))
    tool_call_id := some t.toolCallId
    name := t.toolName }

/-- The flat entries one UI message contributes, in push order. -/
def translateMessage (msg : UIMessage) : List WorkersAIMessage :=
  let textParts := textPartsOf msg.parts
  match msg.role with
  | .user => if textParts ≠ "" then [{ role := .user, content := textParts }] else []
  | .assistant =>
      let calls := collectedCalls msg.parts
      let assistantMsg : WorkersAIMessage :=
        { role := .assistant, content := textParts, tool_calls := calls.map toolCallEntry }
      assistantMsg ::
        calls.filterMap fun t =>
          if hasResultState t.state then some (toolResultEntry t) else none
  | .system => []

/-- Embeds uiMessagesToWorkersAI: each source message appends its block of
flat entries to the output in order. -/
def uiMessagesToWorkersAI (messages : List UIMessage) : List WorkersAIMessage :=
  messages.flatMap translateMessage

/-! ## Durable state and the reminder scheduler -/

/-- Conversation durable state: the reminders list plus the other keys of
the state object, which every mutation preserves via object spread. -/
structure AgentState where
  reminders : List String
  extra : List (String × String)
deriving DecidableEq, Repr

/-- The formatted reminder string onTask appends (the firing timestamp,
new Date().toISOString() in the source, is an explicit parameter). -/
def reminderText (message : String) (firedAt : String) : String :=
  "⏰ Reminder: " ++ message ++ " (triggered at " ++ firedAt ++ ")"

/-- Embeds onTask: read current state, append the formatted reminder, write
the state back with every other key preserved. -/
def onTask (s : AgentState) (message : String) (firedAt : String) : AgentState :=
  { s with reminders := s.reminders ++ [reminderText message firedAt] }

/-- The confirmation record returned by _scheduleReminder. -/
structure ReminderConfirmation where
  scheduled : Bool
  message : Option String
  inSeconds : Int
deriving DecidableEq, Repr

/-- Embeds _scheduleReminder: the durable-object schedule call itself is an
external side effect (tracked separately by the orchestrator model); the
function returns the confirmation record immediately. -/
def _scheduleReminder (message : Option String) (delaySeconds : Int) : ReminderConfirmation :=
  ⟨true, message, delaySeconds⟩

/-! ## System prompt assembly and reminder draining (turn start) -/

/-- The persona part of the system prompt (current date is an explicit
parameter; the template ends with a newline before the reminders slot). -/
def personaText (date : String) : String :=
  "You are Sage AI, a high-performance Enterprise Workspace Assistant. \nYour tone is professional, helpful, and direct. You are running on Cloudflare\x27s edge.\nCurrent Date: " ++ date ++ ".\n"

/-- The reminders block of the system prompt: present exactly when the
pending list is nonempty, containing the newline-join of the list. -/
def remindersSection (pending : List String) : String :=
  if pending.length > 0 then "\n\nREMINDERS FOR USER:\n" ++ String.intercalate "\n" pending
  else ""

/-- The full system prompt of a turn. -/
def systemContent (date : String) (pending : List String) : String :=
  personaText date ++ remindersSection pending

/-- Result of the turn-start prologue of onChatMessage. -/
structure TurnStart where
  sys : String
  pending : List String
  state : AgentState
deriving DecidableEq, Repr

/-- Embeds lines 164-176 of onChatMessage: read the pending reminders from
durable state, build the system prompt, and clear the list (setState runs
only when the list was nonempty). -/
def turnStart (s : AgentState) (date : String) : TurnStart :=
  let pending := s.reminders
  { sys := systemContent date pending
    pending := pending
    state := if pending.length > 0 then { s with reminders := [] } else s }

/-! ## The pass loop (turn orchestrator) -/

/-- A tool-call request as returned by the inference backend (function name
plus the serialized-arguments string). Shares the WorkersAIToolCall shape. -/
abbrev ToolCallRequest := WorkersAIToolCall

/-- One inference response: optional text plus tool-call requests (an
absent tool_calls field is the empty list). -/
structure InferResponse where
  response : Option String
  tool_calls : List ToolCallRequest
deriving DecidableEq, Repr

/-- Outcome of one AI.run invocation: a response, or a throw. -/
inductive InferOutcome where
  | ok (r : InferResponse)
  | err
deriving DecidableEq, Repr

/-- The fields of a parsed tool-arguments object that the orchestrator
reads (args.query, args.message, args.delaySeconds). An argument string
that fails JSON.parse yields none from the parser and the call proceeds
with Args.empty. -/
structure Args where
  query : Option String := none
  message : Option String := none
  delaySeconds : Option Int := none
deriving DecidableEq, Repr

/-- The empty arguments object. -/
def Args.empty : Args := {}

/-- Parsed arguments of a call: JSON.parse(tc.function.arguments ||
"\x7b\x7d") under a try that keeps the empty object on failure. An empty
arguments string is falsy, so the literal empty object is parsed instead. -/
def parseArgs (parse : String → Option Args) (raw : String) : Args :=
  if raw = "" then Args.empty else (parse raw).getD Args.empty

/-- A tool execution result as embedded: the client-pending placeholder
(status fetching), the parsed body of a search response (raw string from
the network, uninterpreted), a reminder confirmation, or the unknown-tool
error object. -/
inductive ToolOutput where
  | fetching
  | search (raw : String)
  | reminder (c : ReminderConfirmation)
  | unknownTool
deriving DecidableEq, Repr

/-- The JSON text pushed as the tool-result message content
(JSON.stringify(output)). For a search result this is the raw response
text itself (parse then stringify of network data, left uninterpreted). -/
def ToolOutput.render : ToolOutput → String
  | .fetching => "\x7b\x22status\x22:\x22fetching\x22\x7d"
  | .search raw => raw
  | .reminder c =>
      "\x7b\x22scheduled\x22:" ++ (if c.scheduled then "true" else "false")
        ++ ",\x22message\x22:" ++ (match c.message with
          | none => "null"
          | some m => "\x22" ++ m ++ "\x22")
        ++ ",\x22inSeconds\x22:" ++ toString c.inSeconds ++ "\x7d"
  | .unknownTool => "\x7b\x22error\x22:\x22Unknown tool\x22\x7d"

/-- Stream events written by the orchestrator (ids of text events are the
timestamped msg or error strings of the source, modelled as fixed tags). -/
inductive Event where
  | textStart (id : String)
  | textDelta (id : String) (delta : String)
  | textEnd (id : String)
  | toolInput (toolCallId : String) (toolName : String) (input : Args)
  | toolOutput (toolCallId : String) (output : ToolOutput)
deriving DecidableEq, Repr

/-- Whether an event is one of the three text events. -/
def Event.isText : Event → Bool
  | .textStart _ => true
  | .textDelta _ _ => true
  | .textEnd _ => true
  | _ => false

/-- Terminal condition of a turn: normal completion, handoff to the client
for a client-executed tool, or abort through the catch block. -/
inductive Outcome where
  | done
  | awaitingClient
  | aborted
deriving DecidableEq, Repr

/-- The text triple emitted for a final model response. -/
def textTriple (id text : String) : List Event :=
  [.textStart id, .textDelta id text, .textEnd id]

/-- The fixed apology text of the catch block. -/
def apologyText : String :=
  "I encountered a technical glitch while processing that. Please try again in a moment."

/-- The apology triple emitted by the catch block. -/
def apologyTriple : List Event := textTriple "error" apologyText

/-- Result of executing the surviving calls of one pass: events written,
tool-result messages pushed, tool names added to the dedup set (in
execution order), schedule calls made (message, delay), and whether a
client-executed tool ended the turn early. -/
structure CallsResult where
  events : List Event
  newMessages : List WorkersAIMessage
  execNames : List String
  sched : List (Option String × Int)
  deferred : Bool
deriving DecidableEq, Repr

/-- Embeds the per-pass execution loop over the filtered calls (lines
220-242): parse arguments, emit tool-input-available, then either hand off
to the client (getUserInfo: emit the fetching placeholder and return),
or execute the server tool, emit tool-output-available and push the
tool-result message. The network body of executeSearchWeb is the
searchImpl parameter. -/
def runCalls (parse : String → Option Args) (searchImpl : String → String) :
    List ToolCallRequest → CallsResult
  | [] => ⟨[], [], [], [], false⟩
  | tc :: rest =>
    let args := parseArgs parse tc.arguments
    if tc.name = "getUserInfo" then
      ⟨[.toolInput tc.id tc.name args, .toolOutput tc.id .fetching],
        [], [tc.name], [], true⟩
    else
      let output : ToolOutput :=
        if tc.name = "searchWeb" then .search (searchImpl (jsOrStr args.query ""))
        else if tc.name = "setReminder" then
          .reminder (_scheduleReminder args.message (jsOrInt args.delaySeconds 60))
        else .unknownTool
      let schedHead : List (Option String × Int) :=
        if tc.name = "setReminder" then [(args.message, jsOrInt args.delaySeconds 60)] else []
      let toolMsg : WorkersAIMessage :=
        { role := .tool, content := output.render
          tool_call_id := some tc.id, name := some tc.name }
      let r := runCalls parse searchImpl rest
      ⟨.toolInput tc.id tc.name args :: .toolOutput tc.id output :: r.events,
        toolMsg :: r.newMessages,
        tc.name :: r.execNames,
        schedHead ++ r.sched,
        r.deferred⟩

/-- Result of the pass loop: events written, the final working message
list, the number of inference invocations made, the terminal outcome, the
tool names executed in each pass (instrumentation used to state the dedup
property), and the schedule calls made. -/
structure OrchResult where
  events : List Event
  messages : List WorkersAIMessage
  passesUsed : Nat
  outcome : Outcome
  passNames : List (List String)
  sched : List (Option String × Int)
deriving DecidableEq, Repr

/-- Embeds the for loop of lines 190-254 plus the surrounding try/catch:
fuel is the remaining iteration count of "for pass in 0..<3", script is
the inference backend (AI.run) by pass index, and called is the calledTools
dedup set (as the list of names added so far). A throw from the inference
call is caught by the catch block, which emits the apology triple. -/
def runLoop (script : Nat → InferOutcome) (parse : String → Option Args)
    (searchImpl : String → String) (pass : Nat) (fuel : Nat)
    (msgs : List WorkersAIMessage) (called : List String) : OrchResult :=
  match fuel with
  | 0 => ⟨[], msgs, 0, .done, [], []⟩
  | fuel' + 1 =>
    match script pass with
    | .err => ⟨apologyTriple, msgs, 1, .aborted, [], []⟩
    | .ok resp =>
      if resp.tool_calls ≠ [] then
        let filtered := resp.tool_calls.filter fun tc => !(called.contains tc.name)
        if filtered = [] then ⟨[], msgs, 1, .done, [], []⟩
        else
          let assistantEntry : WorkersAIMessage :=
            { role := .assistant, content := resp.response.getD ""
              tool_calls := filtered }
          let msgs1 := msgs ++ [assistantEntry]
          let c := runCalls parse searchImpl filtered
          if c.deferred then
            ⟨c.events, msgs1 ++ c.newMessages, 1, .awaitingClient, [c.execNames], c.sched⟩
          else
            let r := runLoop script parse searchImpl (pass + 1) fuel'
              (msgs1 ++ c.newMessages) (called ++ c.execNames)
            ⟨c.events ++ r.events, r.messages, 1 + r.passesUsed, r.outcome,
              c.execNames :: r.passNames, c.sched ++ r.sched⟩
      else
        match resp.response with
        | some text =>
            if text ≠ "" then ⟨textTriple "msg" text, msgs, 1, .done, [], []⟩
            else ⟨[], msgs, 1, .done, [], []⟩
        | none => ⟨[], msgs, 1, .done, [], []⟩

/-- One whole pass loop, from pass 0 with the literal fuel 3 of the source
and an empty dedup set. -/
def runTurn (script : Nat → InferOutcome) (parse : String → Option Args)
    (searchImpl : String → String) (allMessages : List WorkersAIMessage) : OrchResult :=
  runLoop script parse searchImpl 0 3 allMessages []

/-- Result of a whole chat turn: the orchestration result, the durable
state after the turn-start drain, and the system prompt used. -/
structure ChatTurnResult where
  orch : OrchResult
  state : AgentState
  sys : String

/-- Embeds onChatMessage end to end: drain reminders and build the system
prompt, translate the stored history, run the pass loop on system prompt
plus history. -/
def onChatMessage (s : AgentState) (date : String) (history : List UIMessage)
    (script : Nat → InferOutcome) (parse : String → Option Args)
    (searchImpl : String → String) : ChatTurnResult :=
  let ts := turnStart s date
  let allMessages : List WorkersAIMessage :=
    { role := .system, content := ts.sys } :: uiMessagesToWorkersAI history
  ⟨runTurn script parse searchImpl allMessages, ts.state, ts.sys⟩

/-! ## Cross-turn traces (for the drain-once property) -/

/-- An operation touching durable state between or during turns: a chat
turn (its drain step) or a scheduler fire (onTask). -/
inductive AgentOp where
  | chatTurn (date : String)
  | taskFire (message : String) (firedAt : String)

/-- State transition of one operation. -/
def applyOp (s : AgentState) : AgentOp → AgentState
  | .chatTurn date => (turnStart s date).state
  | .taskFire m t => onTask s m t

/-- The reminder strings an operation newly appends to durable state. -/
def opAppends : AgentOp → List String
  | .chatTurn _ => []
  | .taskFire m t => [reminderText m t]

/-- The reminder strings an operation surfaces into a system prompt. -/
def surfacedBy (s : AgentState) : AgentOp → List String
  | .chatTurn _ => s.reminders
  | .taskFire _ _ => []

/-- The per-operation surfaced reminder lists along a trace. -/
def traceSurfaced (s : AgentState) : List AgentOp → List (List String)
  | [] => []
  | op :: ops => surfacedBy s op :: traceSurfaced (applyOp s op) ops

/-! ## Observation helpers -/

/-- The tool names of the tool-input-available events of a stream, in
emission order: one entry per executed tool call. -/
def eventInputNames (evs : List Event) : List String :=
  evs.filterMap fun e =>
    match e with
    | .toolInput _ n _ => some n
    | _ => none

/-- How many tool-input-available events of a stream carry a given tool
name, i.e. how often that tool was executed. -/
def countInputName (evs : List Event) (n : String) : Nat :=
  (eventInputNames evs).count n

/-! ## Concrete instances used in counterexamples and witnesses -/

/-- A parser on which every arguments string fails JSON.parse. -/
def parse0 : String → Option Args := fun _ => none

/-- A fixed search-network response. -/
def search0 : String → String := fun _ => "searched"

/-- A model that requests searchWeb twice, with two entries of the same
function name inside the tool_calls array of its first response, and then
answers with text. -/
def scriptDup : Nat → InferOutcome := fun pass =>
  if pass = 0 then
    .ok ⟨none, [⟨"call-a", "searchWeb", "x"⟩, ⟨"call-b", "searchWeb", "y"⟩]⟩
  else .ok ⟨some "done", []⟩

/-- A backend whose inference call always throws. -/
def scriptErr : Nat → InferOutcome := fun _ => .err

/-- The client-executed tool call of the getUserInfo scenario. -/
def tcGet : ToolCallRequest := ⟨"call-g", "getUserInfo", ""⟩

/-- A model that requests the client-executed getUserInfo tool. -/
def scriptGetInfo : Nat → InferOutcome := fun _ => .ok ⟨none, [tcGet]⟩

/-- A rejected tool part of an assistant history message. -/
def partRej : UIToolPart :=
  ⟨"call-r", some "setReminder", .rejected, some (.obj []), some (.str "out")⟩

/-- An assistant history message carrying one rejected tool call. -/
def msgRejected : UIMessage := ⟨.assistant, [.tool partRej]⟩

/-- An output-available tool part of an assistant history message. -/
def partDone : UIToolPart :=
  ⟨"call-d", some "searchWeb", .outputAvailable, some (.obj []), some (.str "res")⟩

/-- An assistant history message carrying one output-available tool call. -/
def msgDone : UIMessage := ⟨.assistant, [.text "looking", .tool partDone]⟩

/-- A durable state with one pending reminder and one unrelated key. -/
def s0 : AgentState := ⟨["old reminder"], [("k", "v")]⟩

/-- A parser returning the standup reminder arguments. -/
def parseStandup : String → Option Args :=
  fun _ => some { message := some "standup", delaySeconds := some 30 }

/-- A parser returning reminder arguments with delaySeconds 0. -/
def parseZero : String → Option Args :=
  fun _ => some { message := some "standup", delaySeconds := some 0 }

/-- A setReminder tool call with a nonempty arguments string. -/
def tcRem : ToolCallRequest := ⟨"call-s", "setReminder", "args"⟩

/-- A searchWeb tool call whose arguments string is not valid JSON. -/
def tcBad : ToolCallRequest := ⟨"call-m", "searchWeb", "not json"⟩

/-! ## Lemmas about the per-pass execution loop -/

/-- The tool-input-available events of one pass list exactly the names
added to the dedup set, in execution order. -/
lemma runCalls_eventInputNames (parse : String → Option Args) (searchImpl : String → String) :
    ∀ l : List ToolCallRequest,
      eventInputNames (runCalls parse searchImpl l).events
        = (runCalls parse searchImpl l).execNames := by
  intro l
  induction l with
  | nil => simp [runCalls, eventInputNames]
  | cons tc rest ih =>
    by_cases h : tc.name = "getUserInfo"
    · simp [runCalls, h, eventInputNames]
    · simp only [runCalls, if_neg h, eventInputNames, List.filterMap_cons]
      simpa [eventInputNames] using ih

/-- Every name executed in a pass names one of the calls of that pass. -/
lemma runCalls_execNames_sub (parse : String → Option Args) (searchImpl : String → String) :
    ∀ l : List ToolCallRequest, ∀ n ∈ (runCalls parse searchImpl l).execNames,
      n ∈ l.map fun tc => tc.name := by
  intro l
  induction l with
  | nil => simp [runCalls]
  | cons tc rest ih =>
    intro n hn
    by_cases h : tc.name = "getUserInfo"
    · simp only [runCalls, if_pos h] at hn
      simp at hn
      simp [hn]
    · simp only [runCalls, if_neg h] at hn
      rcases List.mem_cons.mp hn with h1 | h2
      · simp [h1]
      · simpa using Or.inr (ih n h2)

/-- The execution loop of a pass emits no text events. -/
lemma runCalls_no_text (parse : String → Option Args) (searchImpl : String → String) :
    ∀ l : List ToolCallRequest, ∀ e ∈ (runCalls parse searchImpl l).events,
      e.isText = false := by
  intro l
  induction l with
  | nil => simp [runCalls]
  | cons tc rest ih =>
    intro e he
    by_cases h : tc.name = "getUserInfo"
    · simp only [runCalls, if_pos h] at he
      simp at he
      rcases he with he | he <;> simp [he, Event.isText]
    · simp only [runCalls, if_neg h] at he
      rcases List.mem_cons.mp he with h1 | h2
      · simp [h1, Event.isText]
      · rcases List.mem_cons.mp h2 with h3 | h4
        · simp [h3, Event.isText]
        · exact ih e h4

/-! ## Lemmas about the pass loop -/

/-- The loop makes at most fuel inference invocations. -/
lemma runLoop_passes_le (script : Nat → InferOutcome) (parse : String → Option Args)
    (searchImpl : String → String) :
    ∀ (fuel pass : Nat) (msgs : List WorkersAIMessage) (called : List String),
      (runLoop script parse searchImpl pass fuel msgs called).passesUsed ≤ fuel := by
  intro fuel
  induction fuel with
  | zero => intro pass msgs called; simp [runLoop]
  | succ f ih =>
    intro pass msgs called
    cases hs : script pass with
    | err => simp [runLoop, hs]
    | ok resp =>
      simp only [runLoop, hs]
      by_cases hne : resp.tool_calls = []
      · rw [if_neg (not_not_intro hne)]
        cases hr : resp.response with
        | none => simp
        | some text =>
          by_cases ht : text = "" <;> simp [ht]
      · rw [if_pos hne]
        set F := resp.tool_calls.filter (fun tc => !(called.contains tc.name)) with hF
        by_cases hf : F = []
        · rw [if_pos hf]; simp
        · rw [if_neg hf]
          set C := runCalls parse searchImpl F with hC
          by_cases hd : C.deferred = true
          · rw [if_pos hd]; simp
          · rw [if_neg hd]
            have hle := ih (pass + 1) ((msgs ++ [({ role := Role.assistant, content := resp.response.getD "", tool_calls := F } : WorkersAIMessage)]) ++ C.newMessages) (called ++ C.execNames)
            simp only []
            omega

/-- A name of a call surviving the dedup filter is not in the dedup set. -/
lemma mem_filter_names (l : List ToolCallRequest) (called : List String) (n : String)
    (h : n ∈ (l.filter fun tc => !(called.contains tc.name)).map fun tc => tc.name) :
    n ∉ called := by
  rcases List.mem_map.mp h with ⟨tc, htc, rfl⟩
  have hp := (List.mem_filter.mp htc).2
  simpa using hp

/-- The tool-input-available events of a whole pass loop list exactly the
per-pass executed names, flattened in order. -/
lemma runLoop_inputNames (script : Nat → InferOutcome) (parse : String → Option Args)
    (searchImpl : String → String) :
    ∀ (fuel pass : Nat) (msgs : List WorkersAIMessage) (called : List String),
      eventInputNames (runLoop script parse searchImpl pass fuel msgs called).events
        = (runLoop script parse searchImpl pass fuel msgs called).passNames.flatten := by
  intro fuel
  induction fuel with
  | zero => intro pass msgs called; simp [runLoop, eventInputNames]
  | succ f ih =>
    intro pass msgs called
    cases hs : script pass with
    | err => simp [runLoop, hs, apologyTriple, textTriple, eventInputNames]
    | ok resp =>
      simp only [runLoop, hs]
      by_cases hne : resp.tool_calls = []
      · rw [if_neg (not_not_intro hne)]
        cases hr : resp.response with
        | none => simp [eventInputNames]
        | some text =>
          by_cases ht : text = "" <;> simp [ht, eventInputNames, textTriple]
      · rw [if_pos hne]
        set F := resp.tool_calls.filter (fun tc => !(called.contains tc.name)) with hF
        by_cases hf : F = []
        · rw [if_pos hf]; simp [eventInputNames]
        · rw [if_neg hf]
          set C := runCalls parse searchImpl F with hC
          by_cases hd : C.deferred = true
          · rw [if_pos hd]
            simpa using runCalls_eventInputNames parse searchImpl F
          · rw [if_neg hd]
            simp only [eventInputNames] at *
            rw [List.filterMap_append]
            simp only [List.flatten_cons]
            rw [ih]
            have := runCalls_eventInputNames parse searchImpl F
            simp only [eventInputNames] at this
            rw [this]

/-- No name executed by the loop was already in the dedup set on entry. -/
lemma runLoop_fresh (script : Nat → InferOutcome) (parse : String → Option Args)
    (searchImpl : String → String) :
    ∀ (fuel pass : Nat) (msgs : List WorkersAIMessage) (called : List String) (n : String),
      n ∈ (runLoop script parse searchImpl pass fuel msgs called).passNames.flatten →
      n ∉ called := by
  intro fuel
  induction fuel with
  | zero => intro pass msgs called n hn; simp [runLoop] at hn
  | succ f ih =>
    intro pass msgs called n hn
    cases hs : script pass with
    | err => rw [runLoop, hs] at hn; simp at hn
    | ok resp =>
      simp only [runLoop, hs] at hn
      by_cases hne : resp.tool_calls = []
      · rw [if_neg (not_not_intro hne)] at hn
        cases hr : resp.response with
        | none => rw [hr] at hn; simp at hn
        | some text =>
          rw [hr] at hn
          by_cases ht : text = "" <;> simp [ht] at hn
      · rw [if_pos hne] at hn
        set F := resp.tool_calls.filter (fun tc => !(called.contains tc.name)) with hF
        by_cases hf : F = []
        · rw [if_pos hf] at hn; simp at hn
        · rw [if_neg hf] at hn
          set C := runCalls parse searchImpl F with hC
          by_cases hd : C.deferred = true
          · rw [if_pos hd] at hn
            simp at hn
            exact mem_filter_names resp.tool_calls called n
              (by rw [← hF]; exact runCalls_execNames_sub parse searchImpl F n (by rw [← hC]; exact hn))
          · rw [if_neg hd] at hn
            simp only [List.flatten_cons, List.mem_append] at hn
            rcases hn with hn | hn
            · exact mem_filter_names resp.tool_calls called n
                (by rw [← hF]; exact runCalls_execNames_sub parse searchImpl F n (by rw [← hC]; exact hn))
            · have := ih (pass + 1) ((msgs ++ [({ role := Role.assistant, content := resp.response.getD "", tool_calls := F } : WorkersAIMessage)]) ++ C.newMessages) (called ++ C.execNames) n hn
              intro hc
              exact this (List.mem_append.mpr (Or.inl hc))

/-- The per-pass executed-name lists of one turn are pairwise disjoint. -/
lemma runLoop_pairwise (script : Nat → InferOutcome) (parse : String → Option Args)
    (searchImpl : String → String) :
    ∀ (fuel pass : Nat) (msgs : List WorkersAIMessage) (called : List String),
      List.Pairwise (fun a b => ∀ n, n ∈ a → n ∉ b)
        (runLoop script parse searchImpl pass fuel msgs called).passNames := by
  intro fuel
  induction fuel with
  | zero => intro pass msgs called; simp [runLoop]
  | succ f ih =>
    intro pass msgs called
    cases hs : script pass with
    | err => simp [runLoop, hs]
    | ok resp =>
      simp only [runLoop, hs]
      by_cases hne : resp.tool_calls = []
      · rw [if_neg (not_not_intro hne)]
        cases hr : resp.response with
        | none => simp
        | some text =>
          by_cases ht : text = "" <;> simp [ht]
      · rw [if_pos hne]
        set F := resp.tool_calls.filter (fun tc => !(called.contains tc.name)) with hF
        by_cases hf : F = []
        · rw [if_pos hf]; simp
        · rw [if_neg hf]
          set C := runCalls parse searchImpl F with hC
          by_cases hd : C.deferred = true
          · rw [if_pos hd]; simp
          · rw [if_neg hd]
            simp only [List.pairwise_cons]
            constructor
            · intro b hb n hnC hnb
              have hflat : n ∈ (runLoop script parse searchImpl (pass + 1) f ((msgs ++ [({ role := Role.assistant, content := resp.response.getD "", tool_calls := F } : WorkersAIMessage)]) ++ C.newMessages) (called ++ C.execNames)).passNames.flatten :=
                List.mem_flatten.mpr ⟨b, hb, hnb⟩
              have := runLoop_fresh script parse searchImpl f (pass + 1) _ _ n hflat
              exact this (List.mem_append.mpr (Or.inr hnC))
            · exact ih (pass + 1) _ _

/-! ## Claim C1 (per-turn tool dedup) -/

/-- C1 counterexample: with a first inference response whose tool_calls
array holds two entries of the same function name searchWeb, the turn
executes searchWeb twice, emitting two tool-input-available events for
that name — the claimed at-most-one bound fails. -/
theorem dedup_per_name_counterexample :
    countInputName (runTurn scriptDup parse0 search0 []).events "searchWeb" = 2 ∧
    ¬ countInputName (runTurn scriptDup parse0 search0 []).events "searchWeb" ≤ 1 := by
  constructor <;> decide

/-- C1 (amended): across passes of a turn no tool name is executed twice —
the per-pass executed-name lists are pairwise disjoint, because the dedup
set filters every call whose name was executed in an earlier pass — and
the tool-input-available events of the turn list exactly those executed
names; however, duplicate-name entries inside the tool_calls array of a
single inference response are each executed within that pass, since the
filter runs before the pass adds any name to the dedup set. -/
theorem dedup_across_passes (script : Nat → InferOutcome) (parse : String → Option Args)
    (searchImpl : String → String) (msgs : List WorkersAIMessage) :
    List.Pairwise (fun a b => ∀ n, n ∈ a → n ∉ b)
      (runTurn script parse searchImpl msgs).passNames ∧
    eventInputNames (runTurn script parse searchImpl msgs).events
      = (runTurn script parse searchImpl msgs).passNames.flatten := by
  exact ⟨runLoop_pairwise script parse searchImpl 3 0 msgs [],
    runLoop_inputNames script parse searchImpl 3 0 msgs []⟩

/-! ## Claim C2 (pass bound) -/

/-- C2: for every inference backend, parser, search collaborator and
initial message list, the turn makes at most 3 inference invocations: the
pass loop never calls the backend a fourth time. -/
theorem pass_bound (script : Nat → InferOutcome) (parse : String → Option Args)
    (searchImpl : String → String) (msgs : List WorkersAIMessage) :
    (runTurn script parse searchImpl msgs).passesUsed ≤ 3 :=
  runLoop_passes_le script parse searchImpl 3 0 msgs []

/-! ## Claim C3 (inference failure) -/

/-- An aborted loop run ends its event stream with the apology triple and
emits no text event before it. -/
lemma runLoop_aborted (script : Nat → InferOutcome) (parse : String → Option Args)
    (searchImpl : String → String) :
    ∀ (fuel pass : Nat) (msgs : List WorkersAIMessage) (called : List String),
      (runLoop script parse searchImpl pass fuel msgs called).outcome = .aborted →
      ∃ pre, (runLoop script parse searchImpl pass fuel msgs called).events
          = pre ++ apologyTriple ∧ ∀ e ∈ pre, e.isText = false := by
  intro fuel
  induction fuel with
  | zero => intro pass msgs called h; simp [runLoop] at h
  | succ f ih =>
    intro pass msgs called h
    cases hs : script pass with
    | err =>
      refine ⟨[], ?_, by simp⟩
      simp [runLoop, hs]
    | ok resp =>
      simp only [runLoop, hs] at h ⊢
      by_cases hne : resp.tool_calls = []
      · rw [if_neg (not_not_intro hne)] at h ⊢
        cases hr : resp.response with
        | none => rw [hr] at h; simp at h
        | some text =>
          rw [hr] at h
          by_cases ht : text = "" <;> simp [ht] at h
      · rw [if_pos hne] at h ⊢
        set F := resp.tool_calls.filter (fun tc => !(called.contains tc.name)) with hF
        by_cases hf : F = []
        · rw [if_pos hf] at h; simp at h
        · rw [if_neg hf] at h ⊢
          set C := runCalls parse searchImpl F with hC
          by_cases hd : C.deferred = true
          · rw [if_pos hd] at h; simp at h
          · rw [if_neg hd] at h ⊢
            simp only [] at h
            rcases ih (pass + 1) ((msgs ++ [({ role := Role.assistant, content := resp.response.getD "", tool_calls := F } : WorkersAIMessage)]) ++ C.newMessages) (called ++ C.execNames) h with ⟨pre, hpre, hno⟩
            refine ⟨C.events ++ pre, ?_, ?_⟩
            · simp only []
              rw [hpre, List.append_assoc]
            · intro e he
              rcases List.mem_append.mp he with he | he
              · exact runCalls_no_text parse searchImpl F e he
              · exact hno e he

/-- C3 counterexample: with one pending reminder in durable state and a
backend that throws on the first pass, the turn aborts but durable state
differs from its value before the turn — the turn-start drain has already
cleared the reminder list. -/
theorem inference_failure_state_counterexample :
    (onChatMessage s0 "date" [] scriptErr parse0 search0).orch.outcome = .aborted ∧
    (onChatMessage s0 "date" [] scriptErr parse0 search0).state ≠ s0 := by
  constructor <;> decide

/-- C3 (amended): if the inference call fails on any pass the turn aborts,
and the event stream then contains exactly one text triple, carrying the
fixed apology text, at its very end; durable state equals the turn-start
state — the reminder list cleared by the drain, every other key unchanged
— so it matches its value from before the turn only when no reminders were
pending. -/
theorem inference_failure_abort (s : AgentState) (date : String) (history : List UIMessage)
    (script : Nat → InferOutcome) (parse : String → Option Args) (searchImpl : String → String)
    (h : (onChatMessage s date history script parse searchImpl).orch.outcome = .aborted) :
    (∃ pre, (onChatMessage s date history script parse searchImpl).orch.events
        = pre ++ apologyTriple ∧ ∀ e ∈ pre, e.isText = false) ∧
    (onChatMessage s date history script parse searchImpl).state = ⟨[], s.extra⟩ := by
  constructor
  · exact runLoop_aborted script parse searchImpl 3 0 _ [] h
  · obtain ⟨rem, extra⟩ := s
    by_cases hr : rem = [] <;>
      simp [onChatMessage, turnStart, hr, List.length_pos]

/-- Witness for C3 (amended) at a concrete failing turn. -/
theorem inference_failure_abort_witness :
    (∃ pre, (onChatMessage s0 "date" [] scriptErr parse0 search0).orch.events
        = pre ++ apologyTriple ∧ ∀ e ∈ pre, e.isText = false) ∧
    (onChatMessage s0 "date" [] scriptErr parse0 search0).state = ⟨[], s0.extra⟩ :=
  inference_failure_abort s0 "date" [] scriptErr parse0 search0 (by decide)

/-! ## Claim C4 (reminder drain-once) -/

/-- A reminder string absent from the current list and never re-appended
is never surfaced along any later trace of turns and scheduler fires. -/
lemma trace_no_resurface :
    ∀ (ops : List AgentOp) (s : AgentState) (r : String),
      r ∉ s.reminders → r ∉ ops.flatMap opAppends →
      ∀ l ∈ traceSurfaced s ops, r ∉ l := by
  intro ops
  induction ops with
  | nil => intro s r _ _ l hl; simp [traceSurfaced] at hl
  | cons op rest ih =>
    intro s r hs hops l hl
    simp only [traceSurfaced, List.mem_cons] at hl
    rw [List.flatMap_cons] at hops
    have hopsRest : r ∉ rest.flatMap opAppends := by
      intro hmem
      exact hops (List.mem_append.mpr (Or.inr hmem))
    rcases hl with rfl | hl
    · cases op with
      | chatTurn d => simpa [surfacedBy] using hs
      | taskFire m t => simp [surfacedBy]
    · cases op with
      | chatTurn d =>
        refine ih _ r ?_ hopsRest l hl
        simp only [applyOp, turnStart]
        split_ifs with hpos
        · simp
        · exact hs
      | taskFire m t =>
        refine ih _ r ?_ hopsRest l hl
        simp only [applyOp, onTask, List.mem_append]
        rintro (hmem | hmem)
        · exact hs hmem
        · exact hops (List.mem_append.mpr (Or.inl (by simpa [opAppends] using hmem)))

/-- C4: the pending reminders of durable state are surfaced once in the
system prompt of the turn that drains them (the prompt is the persona text
followed by one reminders block joining the pending list), the list is
empty immediately after the drain, a directly following turn surfaces
nothing and carries a prompt with no reminders block, and a drained
reminder string is never surfaced by any later sequence of turns and
scheduler fires unless a fire re-appends that exact string. -/
theorem reminders_drain_once (s : AgentState) (date : String) :
    ((turnStart s date).pending = s.reminders
     ∧ (s.reminders ≠ [] → (turnStart s date).sys
         = personaText date ++ ("\n\nREMINDERS FOR USER:\n" ++ String.intercalate "\n" s.reminders))
     ∧ (turnStart s date).state.reminders = []
     ∧ ∀ date2, (turnStart (turnStart s date).state date2).pending = []
         ∧ (turnStart (turnStart s date).state date2).sys = personaText date2)
    ∧ ∀ (ops : List AgentOp) (r : String), r ∉ ops.flatMap opAppends →
        ∀ l ∈ traceSurfaced (turnStart s date).state ops, r ∉ l := by
  have hdrain : (turnStart s date).state.reminders = [] := by
    simp only [turnStart]
    split_ifs with hpos
    · simp
    · simpa using hpos
  refine ⟨⟨rfl, ?_, hdrain, ?_⟩, ?_⟩
  · intro hne
    simp [turnStart, systemContent, remindersSection, List.length_pos, hne]
  · intro date2
    constructor
    · exact hdrain
    · have h1 : (turnStart (turnStart s date).state date2).sys
          = personaText date2 ++ remindersSection (turnStart s date).state.reminders := rfl
      rw [h1, hdrain]
      simp [remindersSection]
  · intro ops r hops l hl
    exact trace_no_resurface ops _ r (by simp [hdrain]) hops l hl

/-- Witness for C4 at a concrete state with one pending reminder, with a
scheduler fire happening after the draining turn. -/
theorem reminders_drain_once_witness :
    (turnStart s0 "d").sys
      = personaText "d" ++ ("\n\nREMINDERS FOR USER:\n" ++ String.intercalate "\n" s0.reminders)
    ∧ (turnStart s0 "d").state.reminders = []
    ∧ ∀ l ∈ traceSurfaced (turnStart s0 "d").state
        [AgentOp.taskFire "standup" "t0", AgentOp.chatTurn "d2"], "old reminder" ∉ l :=
  ⟨(reminders_drain_once s0 "d").1.2.1 (by decide),
   (reminders_drain_once s0 "d").1.2.2.1,
   (reminders_drain_once s0 "d").2 [AgentOp.taskFire "standup" "t0", AgentOp.chatTurn "d2"]
     "old reminder" (by decide)⟩

/-! ## Lemmas about the message translator -/

/-- When every collected call has state output-available, the tool-result
block is one entry per call, in order. -/
lemma filterMap_result_all_output :
    ∀ ts : List UIToolPart, (∀ t ∈ ts, t.state = .outputAvailable) →
      ts.filterMap (fun t => if hasResultState t.state then some (toolResultEntry t) else none)
        = ts.map toolResultEntry := by
  intro ts
  induction ts with
  | nil => intro _; simp
  | cons u rest ih =>
    intro h
    have hu : u.state = .outputAvailable := h u (List.mem_cons_self u rest)
    have hrest := ih fun t ht => h t (List.mem_cons_of_mem u ht)
    have hfu : (if hasResultState u.state = true then some (toolResultEntry u) else none)
        = some (toolResultEntry u) := by rw [hu]; rfl
    simp [List.filterMap_cons, hfu, hrest]

/-- Filtering the tool-result block by a call id is the tool-result block
of the calls with that id. -/
lemma filter_results_comm :
    ∀ (ts : List UIToolPart) (x : String),
      ((ts.filterMap fun t => if hasResultState t.state then some (toolResultEntry t) else none).filter
          fun e => e.tool_call_id = some x)
        = ((ts.filter fun u => u.toolCallId = x).filterMap
            fun t => if hasResultState t.state then some (toolResultEntry t) else none) := by
  intro ts x
  induction ts with
  | nil => simp
  | cons u rest ih =>
    have hre : (toolResultEntry u).tool_call_id = some u.toolCallId := rfl
    by_cases hst : hasResultState u.state = true
    · by_cases hid : u.toolCallId = x
      · simp [List.filterMap_cons, List.filter_cons, hst, hid, hre, ih]
      · simp [List.filterMap_cons, List.filter_cons, hst, hid, hre, ih]
    · by_cases hid : u.toolCallId = x
      · simp [List.filterMap_cons, List.filter_cons, hst, hid, ih]
      · simp [List.filterMap_cons, List.filter_cons, hst, hid, ih]

/-- With id-distinct parts, filtering by the id of a member leaves exactly
that member. -/
lemma nodup_filter_single :
    ∀ (ts : List UIToolPart), ((ts.map fun u => u.toolCallId).Nodup) →
      ∀ t ∈ ts, ts.filter (fun u => u.toolCallId = t.toolCallId) = [t] := by
  intro ts
  induction ts with
  | nil => intro _ t ht; cases ht
  | cons u rest ih =>
    intro hnd t ht
    simp only [List.map_cons, List.nodup_cons] at hnd
    obtain ⟨hnotin, hnd'⟩ := hnd
    rcases List.mem_cons.mp ht with rfl | htrest
    · rw [List.filter_cons]
      simp only [decide_eq_true_eq, if_pos rfl, decide_True]
      have hrest : rest.filter (fun u => u.toolCallId = t.toolCallId) = [] := by
        rw [List.filter_eq_nil_iff]
        intro v hv
        simp only [decide_eq_true_eq]
        intro hveq
        exact hnotin (List.mem_map.mpr ⟨v, hv, hveq.symm ▸ rfl⟩)
      simp [hrest]
    · have hne : ¬ u.toolCallId = t.toolCallId := by
        intro he
        exact hnotin (he ▸ List.mem_map.mpr ⟨t, htrest, rfl⟩)
      rw [List.filter_cons]
      simp only [decide_eq_true_eq, hne, if_neg, decide_False]
      simpa using ih hnd' t htrest

/-! ## Claim C5 (translator ordering) -/

/-- C5: the translator preserves source message order (it maps each message
to a contiguous block, and distributes over concatenation of histories),
and for an assistant message whose collected calls are all in state
output-available the translated block is the assistant entry — carrying one
tool_calls record per call, ids in part order — immediately followed by one
tool-role entry per call, in the order the tool parts appear, each carrying
the matching tool_call_id and the serialized recorded output; with exactly
one such call this is the assistant entry immediately followed by exactly
one tool-role entry with the matching tool_call_id. -/
theorem translator_order :
    (∀ xs ys : List UIMessage,
      uiMessagesToWorkersAI (xs ++ ys) = uiMessagesToWorkersAI xs ++ uiMessagesToWorkersAI ys)
    ∧ (∀ (m : UIMessage) (ts : List UIToolPart), m.role = .assistant →
        collectedCalls m.parts = ts → (∀ t ∈ ts, t.state = .outputAvailable) →
        ∃ asst results, translateMessage m = asst :: results
          ∧ asst.role = .assistant
          ∧ (asst.tool_calls.map fun c => c.id) = (ts.map fun t => t.toolCallId)
          ∧ (results.map fun e => e.tool_call_id) = (ts.map fun t => some t.toolCallId)
          ∧ (results.map fun e => e.content) = (ts.map fun t => Json.render (t.output.getD (.obj [])))
          ∧ ∀ e ∈ results, e.role = .tool) := by
  constructor
  · intro xs ys
    simp [uiMessagesToWorkersAI]
  · intro m ts hrole hts hall
    obtain ⟨mrole, mparts⟩ := m
    simp only at hrole
    subst hrole
    simp only [translateMessage]
    simp only at hts
    rw [hts, filterMap_result_all_output ts hall]
    refine ⟨_, _, rfl, rfl, ?_, ?_, ?_, ?_⟩
    · simp [toolCallEntry]
    · simp [toolResultEntry]
    · simp only [List.map_map]
      apply List.map_congr_left
      intro t ht
      simp [toolResultEntry, Function.comp, hall t ht, hasResultState]
    · intro e he
      rcases List.mem_map.mp he with ⟨t, _, rfl⟩
      rfl

/-- Witness for C5: a history of a user message and an assistant message
with one completed searchWeb call translates to the assistant entry
immediately followed by the single matching tool-result entry. -/
theorem translator_order_witness :
    uiMessagesToWorkersAI ([⟨.user, [.text "hi"]⟩] ++ [msgDone])
      = uiMessagesToWorkersAI [⟨.user, [.text "hi"]⟩] ++ uiMessagesToWorkersAI [msgDone]
    ∧ ∃ asst results, translateMessage msgDone = asst :: results
        ∧ asst.role = .assistant
        ∧ (asst.tool_calls.map fun c => c.id) = ([partDone].map fun t => t.toolCallId)
        ∧ (results.map fun e => e.tool_call_id) = ([partDone].map fun t => some t.toolCallId)
        ∧ (results.map fun e => e.content)
            = ([partDone].map fun t => Json.render (t.output.getD (.obj [])))
        ∧ ∀ e ∈ results, e.role = .tool :=
  ⟨translator_order.1 [⟨.user, [.text "hi"]⟩] [msgDone],
   translator_order.2 msgDone [partDone] rfl rfl
     (by intro t ht; simp at ht; subst ht; rfl)⟩

/-! ## Claim C7 (tool-call lifecycle translation) -/

/-- C7 counterexample: for an assistant message with one rejected tool
call, the following tool-role entry carries the fixed string
"Error: User rejected this action.", and no entry of the translation
carries the literal content "user rejected this action" stated by the
claim. -/
theorem rejected_string_counterexample :
    ((uiMessagesToWorkersAI [msgRejected]).map fun e => e.content)
      = ["", "Error: User rejected this action."]
    ∧ ¬ (uiMessagesToWorkersAI [msgRejected]).any fun e => e.content = "user rejected this action" := by
  constructor <;> decide

/-- C7 (amended): in a translated assistant message with id-distinct tool
parts, a rejected call appears in the assistant entry's tool_calls and
produces exactly one following tool-result entry whose content is the
fixed error string "Error: User rejected this action." instead of the
original output; an approval-required call appears in tool_calls but
produces no tool-result entry; a requested call appears in neither. -/
theorem lifecycle_translation (m : UIMessage) (t : UIToolPart)
    (hrole : m.role = .assistant)
    (hnd : ((toolPartsOf m.parts).map fun u => u.toolCallId).Nodup)
    (ht : t ∈ toolPartsOf m.parts) :
    ∃ asst results, translateMessage m = asst :: results
      ∧ (t.state = .rejected →
          (results.filter fun e => e.tool_call_id = some t.toolCallId) = [toolResultEntry t]
          ∧ (toolResultEntry t).content = "Error: User rejected this action."
          ∧ t.toolCallId ∈ asst.tool_calls.map fun c => c.id)
      ∧ (t.state = .approvalRequired →
          t.toolCallId ∈ (asst.tool_calls.map fun c => c.id)
          ∧ (results.filter fun e => e.tool_call_id = some t.toolCallId) = [])
      ∧ (t.state = .requested →
          t.toolCallId ∉ (asst.tool_calls.map fun c => c.id)
          ∧ (results.filter fun e => e.tool_call_id = some t.toolCallId) = []) := by
  obtain ⟨mrole, mparts⟩ := m
  simp only at hrole
  subst hrole
  simp only at hnd ht
  have hsingle := nodup_filter_single (toolPartsOf mparts) hnd t ht
  have hcomm : (collectedCalls mparts).filter (fun u => u.toolCallId = t.toolCallId)
      = List.filter (fun u => isCollectedState u.state)
          (List.filter (fun u => u.toolCallId = t.toolCallId) (toolPartsOf mparts)) := by
    simp only [collectedCalls, List.filter_filter]
    exact List.filter_congr fun u _ => Bool.and_comm _ _
  simp only [translateMessage]
  refine ⟨_, _, rfl, ?_, ?_, ?_⟩
  · intro hstate
    refine ⟨?_, ?_, ?_⟩
    · rw [filter_results_comm, hcomm, hsingle]
      simp [hstate, isCollectedState, hasResultState]
    · simp [toolResultEntry, hstate]
    · apply List.mem_map.mpr
      refine ⟨toolCallEntry t, List.mem_map.mpr ⟨t, ?_, rfl⟩, rfl⟩
      exact List.mem_filter.mpr ⟨ht, by simp [hstate, isCollectedState]⟩
  · intro hstate
    constructor
    · apply List.mem_map.mpr
      refine ⟨toolCallEntry t, List.mem_map.mpr ⟨t, ?_, rfl⟩, rfl⟩
      exact List.mem_filter.mpr ⟨ht, by simp [hstate, isCollectedState]⟩
    · rw [filter_results_comm, hcomm, hsingle]
      simp [hstate, isCollectedState, hasResultState]
  · intro hstate
    constructor
    · intro hmem
      rcases List.mem_map.mp hmem with ⟨c, hc, hcid⟩
      rcases List.mem_map.mp hc with ⟨u, hu, rfl⟩
      have huparts := (List.mem_filter.mp hu).1
      have hustate := (List.mem_filter.mp hu).2
      have : u = t := List.inj_on_of_nodup_map hnd huparts ht hcid
      subst this
      simp [hstate, isCollectedState] at hustate
    · rw [filter_results_comm, hcomm, hsingle]
      simp [hstate, isCollectedState]

/-- Witness for C7 at an assistant message with one rejected call. -/
theorem lifecycle_translation_witness :
    ∃ asst results,
      translateMessage msgRejected = asst :: results
      ∧ (results.filter fun e => e.tool_call_id = some partRej.toolCallId) = [toolResultEntry partRej]
      ∧ (toolResultEntry partRej).content = "Error: User rejected this action." := by
  rcases lifecycle_translation msgRejected partRej rfl (by decide)
      (List.mem_singleton.mpr rfl) with ⟨asst, results, heq, hrej, _, _⟩
  exact ⟨asst, results, heq, (hrej rfl).1, (hrej rfl).2.1⟩

/-! ## Claim C6 (client-executed tool handoff) -/

/-- Executing a pass whose calls hold a getUserInfo entry stops at the
first such entry: the events are those of the earlier calls followed by
the input event and the fetching placeholder for it, no tool-result
message is pushed for it, and the pass is marked deferred. -/
lemma runCalls_split (parse : String → Option Args) (searchImpl : String → String) :
    ∀ (pre : List ToolCallRequest) (c : ToolCallRequest) (post : List ToolCallRequest),
      c.name = "getUserInfo" → (∀ u ∈ pre, u.name ≠ "getUserInfo") →
      runCalls parse searchImpl (pre ++ c :: post)
        = ⟨(runCalls parse searchImpl pre).events
            ++ [.toolInput c.id c.name (parseArgs parse c.arguments), .toolOutput c.id .fetching],
           (runCalls parse searchImpl pre).newMessages,
           (runCalls parse searchImpl pre).execNames ++ [c.name],
           (runCalls parse searchImpl pre).sched,
           true⟩ := by
  intro pre
  induction pre with
  | nil =>
    intro c post hc hpre
    simp [runCalls, hc]
  | cons u rest ih =>
    intro c post hc hpre
    have hu : u.name ≠ "getUserInfo" := hpre u (List.mem_cons_self u rest)
    have ihr := ih c post hc fun v hv => hpre v (List.mem_cons_of_mem u hv)
    simp [runCalls, hu, ihr]

/-- A loop run that hands off to the client emits no text event. -/
lemma runLoop_await_noText (script : Nat → InferOutcome) (parse : String → Option Args)
    (searchImpl : String → String) :
    ∀ (fuel pass : Nat) (msgs : List WorkersAIMessage) (called : List String),
      (runLoop script parse searchImpl pass fuel msgs called).outcome = .awaitingClient →
      ∀ e ∈ (runLoop script parse searchImpl pass fuel msgs called).events, e.isText = false := by
  intro fuel
  induction fuel with
  | zero => intro pass msgs called h; simp [runLoop] at h
  | succ f ih =>
    intro pass msgs called h
    cases hs : script pass with
    | err => rw [runLoop, hs] at h; simp at h
    | ok resp =>
      simp only [runLoop, hs] at h ⊢
      by_cases hne : resp.tool_calls = []
      · rw [if_neg (not_not_intro hne)] at h
        cases hr : resp.response with
        | none => rw [hr] at h; simp at h
        | some text =>
          rw [hr] at h
          by_cases ht : text = "" <;> simp [ht] at h
      · rw [if_pos hne] at h ⊢
        set F := resp.tool_calls.filter (fun tc => !(called.contains tc.name)) with hF
        by_cases hf : F = []
        · rw [if_pos hf] at h; simp at h
        · rw [if_neg hf] at h ⊢
          set C := runCalls parse searchImpl F with hC
          by_cases hd : C.deferred = true
          · rw [if_pos hd] at h ⊢
            intro e he
            simp only [] at he
            exact runCalls_no_text parse searchImpl F e he
          · rw [if_neg hd] at h ⊢
            simp only [] at h
            intro e he
            simp only [List.mem_append] at he
            rcases he with he | he
            · exact runCalls_no_text parse searchImpl F e he
            · exact ih (pass + 1) _ _ h e he

/-- C6: when a pass's surviving calls include one naming getUserInfo, the
turn ends awaiting the client with no further inference pass: the events
of the remaining run are those of the earlier surviving calls followed by
exactly one tool-input-available and one tool-output-available with the
fetching placeholder for the first getUserInfo call; no tool-result
message is appended for it; and a turn that ends awaiting the client
emits no text event at all. -/
theorem getUserInfo_defers (script : Nat → InferOutcome) (parse : String → Option Args)
    (searchImpl : String → String) (pass fuel : Nat) (msgs : List WorkersAIMessage)
    (called : List String) (resp : InferResponse) (pre post : List ToolCallRequest)
    (c : ToolCallRequest) (hs : script pass = .ok resp)
    (hfil : resp.tool_calls.filter (fun tc => !(called.contains tc.name)) = pre ++ c :: post)
    (hc : c.name = "getUserInfo") (hpre : ∀ u ∈ pre, u.name ≠ "getUserInfo") :
    ((runLoop script parse searchImpl pass (fuel + 1) msgs called).outcome = .awaitingClient
     ∧ (runLoop script parse searchImpl pass (fuel + 1) msgs called).passesUsed = 1
     ∧ (runLoop script parse searchImpl pass (fuel + 1) msgs called).events
         = (runCalls parse searchImpl pre).events
           ++ [.toolInput c.id c.name (parseArgs parse c.arguments), .toolOutput c.id .fetching]
     ∧ (runLoop script parse searchImpl pass (fuel + 1) msgs called).messages
         = (msgs ++ [({ role := .assistant, content := resp.response.getD "", tool_calls := pre ++ c :: post } : WorkersAIMessage)])
           ++ (runCalls parse searchImpl pre).newMessages)
    ∧ ∀ (msgs2 : List WorkersAIMessage),
        (runTurn script parse searchImpl msgs2).outcome = .awaitingClient →
        ∀ e ∈ (runTurn script parse searchImpl msgs2).events, e.isText = false := by
  have hne : resp.tool_calls ≠ [] := by
    intro h0
    rw [h0] at hfil
    simp at hfil
  have hfne : resp.tool_calls.filter (fun tc => !(called.contains tc.name)) ≠ [] := by
    rw [hfil]
    simp
  have hsplit := runCalls_split parse searchImpl pre c post hc hpre
  have hval : runLoop script parse searchImpl pass (fuel + 1) msgs called
      = ⟨(runCalls parse searchImpl pre).events
           ++ [.toolInput c.id c.name (parseArgs parse c.arguments), .toolOutput c.id .fetching],
         (msgs ++ [({ role := .assistant, content := resp.response.getD "", tool_calls := pre ++ c :: post } : WorkersAIMessage)])
           ++ (runCalls parse searchImpl pre).newMessages,
         1, .awaitingClient,
         [(runCalls parse searchImpl pre).execNames ++ [c.name]],
         (runCalls parse searchImpl pre).sched⟩ := by
    simp only [runLoop, hs]
    rw [if_pos hne, hfil, hsplit]
    simp
  refine ⟨?_, ?_⟩
  · rw [hval]
    exact ⟨rfl, rfl, rfl, rfl⟩
  · intro msgs2 hout e he
    exact runLoop_await_noText script parse searchImpl 3 0 msgs2 [] hout e he

/-- Witness for C6 at a model that requests getUserInfo on the first pass. -/
theorem getUserInfo_defers_witness :
    ((runLoop scriptGetInfo parse0 search0 0 3 [] []).outcome = .awaitingClient
     ∧ (runLoop scriptGetInfo parse0 search0 0 3 [] []).passesUsed = 1
     ∧ (runLoop scriptGetInfo parse0 search0 0 3 [] []).events
         = (runCalls parse0 search0 []).events
           ++ [.toolInput tcGet.id tcGet.name (parseArgs parse0 tcGet.arguments),
               .toolOutput tcGet.id .fetching]
     ∧ (runLoop scriptGetInfo parse0 search0 0 3 [] []).messages
         = ([] ++ [({ role := .assistant, content := "", tool_calls := [] ++ tcGet :: [] } : WorkersAIMessage)])
           ++ (runCalls parse0 search0 []).newMessages)
    ∧ ∀ e ∈ (runTurn scriptGetInfo parse0 search0 []).events, e.isText = false := by
  have h := getUserInfo_defers scriptGetInfo parse0 search0 0 2 [] []
    ⟨none, [tcGet]⟩ [] [] tcGet rfl (by decide) rfl (by intro u hu; cases hu)
  exact ⟨h.1, h.2 [] (by decide)⟩

/-! ## Claim C8 (malformed tool arguments) -/

/-- A failing parse yields the empty arguments object. -/
lemma parseArgs_none (parse : String → Option Args) (raw : String)
    (h : parse raw = none) : parseArgs parse raw = Args.empty := by
  unfold parseArgs
  split_ifs <;> simp [h]

/-- A succeeding parse of a nonempty arguments string yields its value. -/
lemma parseArgs_some (parse : String → Option Args) (raw : String) (args : Args)
    (hraw : raw ≠ "") (h : parse raw = some args) : parseArgs parse raw = args := by
  unfold parseArgs
  rw [if_neg hraw, h]
  rfl

/-- C8: a surviving call whose serialized arguments fail to parse does not
fail the pass: its tool-input-available event carries the empty arguments
object, and — for the searchWeb tool — execution proceeds with the default
empty query, emits its output event, and the loop continues over the
remaining calls. -/
theorem malformed_args_empty (parse : String → Option Args) (searchImpl : String → String)
    (tc : ToolCallRequest) (rest : List ToolCallRequest)
    (h : parse tc.arguments = none) :
    (runCalls parse searchImpl (tc :: rest)).events.head?
        = some (.toolInput tc.id tc.name Args.empty)
    ∧ (tc.name = "searchWeb" →
        (runCalls parse searchImpl (tc :: rest)).events.take 2
          = [.toolInput tc.id tc.name Args.empty,
             .toolOutput tc.id (.search (searchImpl ""))]
        ∧ (runCalls parse searchImpl (tc :: rest)).execNames
            = tc.name :: (runCalls parse searchImpl rest).execNames
        ∧ (runCalls parse searchImpl (tc :: rest)).deferred
            = (runCalls parse searchImpl rest).deferred) := by
  have hargs := parseArgs_none parse tc.arguments h
  constructor
  · by_cases hg : tc.name = "getUserInfo" <;> simp [runCalls, hg, hargs]
  · intro hname
    have hg : ¬ tc.name = "getUserInfo" := by rw [hname]; decide
    refine ⟨?_, ?_, ?_⟩ <;>
      simp [runCalls, hg, hname, hargs, jsOrStr, Args.empty]

/-- Witness for C8 at a searchWeb call with non-JSON arguments. -/
theorem malformed_args_empty_witness :
    (runCalls parse0 search0 [tcBad]).events.head?
        = some (.toolInput tcBad.id tcBad.name Args.empty)
    ∧ (runCalls parse0 search0 [tcBad]).events.take 2
        = [.toolInput tcBad.id tcBad.name Args.empty,
           .toolOutput tcBad.id (.search (search0 ""))] :=
  ⟨(malformed_args_empty parse0 search0 tcBad [] rfl).1,
   ((malformed_args_empty parse0 search0 tcBad [] rfl).2 rfl).1⟩

/-! ## Claim C9 (reminder scheduling and firing) -/

/-- C9: _scheduleReminder returns the confirmation record echoing message
and delay — for standup with 30 seconds it is scheduled: true, message
standup, inSeconds 30 — the orchestrator emits that record as the tool
output of a setReminder call, and when the scheduled callback fires,
onTask appends to the durable reminders list one formatted string
containing the message and the firing timestamp, leaving every other
state key unchanged. -/
theorem setReminder_confirms :
    _scheduleReminder (some "standup") 30 = ⟨true, some "standup", 30⟩
    ∧ (∀ (parse : String → Option Args) (searchImpl : String → String)
        (tc : ToolCallRequest) (rest : List ToolCallRequest) (args : Args),
        tc.arguments ≠ "" → parse tc.arguments = some args → tc.name = "setReminder" →
        (runCalls parse searchImpl (tc :: rest)).events.take 2
          = [.toolInput tc.id tc.name args,
             .toolOutput tc.id (.reminder (_scheduleReminder args.message (jsOrInt args.delaySeconds 60)))])
    ∧ (∀ (s : AgentState) (msg ts : String),
        (onTask s msg ts).reminders = s.reminders ++ [reminderText msg ts]
        ∧ (onTask s msg ts).extra = s.extra)
    ∧ (∀ msg ts : String, ∃ a b c d : String,
        reminderText msg ts = a ++ msg ++ b ∧ reminderText msg ts = c ++ ts ++ d) := by
  refine ⟨rfl, ?_, ?_, ?_⟩
  · intro parse searchImpl tc rest args hraw hp hname
    have hargs := parseArgs_some parse tc.arguments args hraw hp
    have hg : ¬ tc.name = "getUserInfo" := by rw [hname]; decide
    have hw : ¬ tc.name = "searchWeb" := by rw [hname]; decide
    simp [runCalls, hg, hw, hname, hargs]
  · intro s msg ts
    exact ⟨rfl, rfl⟩
  · intro msg ts
    refine ⟨"⏰ Reminder: ", " (triggered at " ++ ts ++ ")",
      "⏰ Reminder: " ++ msg ++ " (triggered at ", ")", ?_, ?_⟩ <;>
      simp [reminderText, String.append_assoc]

/-- Witness for C9 at the standup scenario with a 30 second delay. -/
theorem setReminder_confirms_witness :
    (runCalls parseStandup search0 [tcRem]).events.take 2
      = [.toolInput tcRem.id tcRem.name { message := some "standup", delaySeconds := some 30 },
         .toolOutput tcRem.id (.reminder ⟨true, some "standup", 30⟩)]
    ∧ (onTask s0 "standup" "2026-01-01T00:00:00.000Z").reminders
        = s0.reminders ++ [reminderText "standup" "2026-01-01T00:00:00.000Z"] := by
  constructor
  · have h := setReminder_confirms.2.1 parseStandup search0 tcRem []
      { message := some "standup", delaySeconds := some 30 } (by decide) rfl rfl
    simpa [jsOrInt, _scheduleReminder] using h
  · exact (setReminder_confirms.2.2.1 s0 "standup" "2026-01-01T00:00:00.000Z").1

/-! ## Claim C10 (default reminder delay) -/

/-- C10: a setReminder call whose parsed arguments omit delaySeconds, or
give it the falsy value 0, is scheduled with the default delay of 60
seconds and its confirmation record reports inSeconds 60; the fallback
never passes a zero delay, so no zero-delay reminder can be requested
through this interface. -/
theorem zero_delay_defaults (parse : String → Option Args) (searchImpl : String → String)
    (tc : ToolCallRequest) (rest : List ToolCallRequest) (args : Args)
    (hraw : tc.arguments ≠ "") (hp : parse tc.arguments = some args)
    (hname : tc.name = "setReminder")
    (hz : args.delaySeconds = none ∨ args.delaySeconds = some 0) :
    (runCalls parse searchImpl (tc :: rest)).events.take 2
      = [.toolInput tc.id tc.name args, .toolOutput tc.id (.reminder ⟨true, args.message, 60⟩)]
    ∧ (runCalls parse searchImpl (tc :: rest)).sched.take 1 = [(args.message, 60)]
    ∧ ∀ d : Option Int, jsOrInt d 60 ≠ 0 := by
  have hargs := parseArgs_some parse tc.arguments args hraw hp
  have hg : ¬ tc.name = "getUserInfo" := by rw [hname]; decide
  have hw : ¬ tc.name = "searchWeb" := by rw [hname]; decide
  have h60 : jsOrInt args.delaySeconds 60 = 60 := by
    rcases hz with hz | hz <;> simp [jsOrInt, hz]
  refine ⟨?_, ?_, ?_⟩
  · simp [runCalls, hg, hw, hname, hargs, h60, _scheduleReminder]
  · simp [runCalls, hg, hw, hname, hargs, h60]
  · intro d
    cases d with
    | none => simp [jsOrInt]
    | some n =>
      simp only [jsOrInt]
      split_ifs with hn
      · decide
      · simpa using hn

/-- Witness for C10 at a setReminder call requesting a zero delay. -/
theorem zero_delay_defaults_witness :
    (runCalls parseZero search0 [tcRem]).events.take 2
      = [.toolInput tcRem.id tcRem.name { message := some "standup", delaySeconds := some 0 },
         .toolOutput tcRem.id (.reminder ⟨true, some "standup", 60⟩)]
    ∧ (runCalls parseZero search0 [tcRem]).sched.take 1 = [(some "standup", 60)] := by
  have h := zero_delay_defaults parseZero search0 tcRem []
    { message := some "standup", delaySeconds := some 0 } (by decide) rfl rfl (Or.inr rfl)
  exact ⟨h.1, h.2.1⟩

end Worker
